import Mathlib

/-!
Verification of the DID-document destination resolution, linked-data-proof
engine and key-resolver adapter of this repository, over a shallow embedding.

Strings are modelled as lists of characters (`Chars`), matching Go's byte
strings for the ASCII data handled here.  Go errors are modelled as values of
explicit error inductives carrying the cause where the source preserves it.
-/

abbrev Chars := List Char

deriving instance DecidableEq for Except

/-- Embedding of Go `strings.Split(s, sep)` for a single-character separator:
the slices of `s` between occurrences of `sep`.  `splitOnChar sep s` has
`s.count sep + 1` entries, entries may be empty. -/
def splitOnChar (sep : Char) : Chars → List Chars
  | [] => [[]]
  | c :: cs =>
    if c = sep then [] :: splitOnChar sep cs
    else
      match splitOnChar sep cs with
      | [] => [[c]]
      | p :: ps => (c :: p) :: ps

/-- Embedding of `verifier.PublicKey` (src/pkg/doc/verifiable/linked_data_proof.go
resolves to a `*verifier.PublicKey`): a type tag and raw value. -/
structure PublicKey where
  type : Chars
  value : Chars
deriving DecidableEq

/-- Outcomes of `keyResolverAdapter.Resolve`: either the freshly constructed
"wrong id ... to resolve" error (carrying the split slices, as the Go
`fmt.Errorf("wrong id %s to resolve", idSplit)` does), or an error value
propagated unchanged from the fetcher. -/
inductive KRAErr
  | malformedIdentifier (parts : List Chars)
  | fetcher (e : Chars)
deriving DecidableEq

/-- A `PublicKeyFetcher`: `fetch(ownerDID, keyID) -> *verifier.PublicKey, error`. -/
abbrev PublicKeyFetcher := Chars → Chars → Except Chars PublicKey

/-- Embedding of `keyResolverAdapter.Resolve`
(src/pkg/doc/verifiable/linked_data_proof.go:59-73): split the id on `#`;
if the split does not have exactly `resolveIDParts = 2` entries fail with the
"wrong id" error; otherwise call the fetcher with `idSplit[0]` and
`"#" + idSplit[1]` and return its result, propagating its error unchanged. -/
def kraResolve (pubKeyFetcher : PublicKeyFetcher) (id : Chars) : Except KRAErr PublicKey :=
  match splitOnChar '#' id with
  | [owner, keyID] =>
    match pubKeyFetcher owner ('#' :: keyID) with
    | .error e => .error (.fetcher e)
    | .ok pk => .ok pk
  | parts => .error (.malformedIdentifier parts)

/-- The fetcher invocations `keyResolverAdapter.Resolve` performs on a given
id, read off the control flow of the source: none on the malformed path, and
exactly one call `fetch(idSplit[0], "#" + idSplit[1])` otherwise. -/
def kraResolveCalls (id : Chars) : List (Chars × Chars) :=
  match splitOnChar '#' id with
  | [owner, keyID] => [(owner, '#' :: keyID)]
  | _ => []

/-- The condition the spec sentence for claim C1 states for acceptance:
the identifier splits on `#` into exactly two NON-EMPTY parts.  (Refinement
definition written from the spec's words, to be compared with the source's
actual check, which only counts the parts.) -/
def specTwoNonemptyParts (id : Chars) : Prop :=
  ∃ owner fragment, owner ≠ [] ∧ fragment ≠ [] ∧ splitOnChar '#' id = [owner, fragment]

instance (id : Chars) : Decidable (specTwoNonemptyParts id) := by
  unfold specTwoNonemptyParts
  match h : splitOnChar '#' id with
  | [a, b] =>
    by_cases ha : a = []
    · exact .isFalse (by rintro ⟨o, f, ho, hf, he⟩; injection he with h1 h2; exact ho (h1 ▸ ha))
    · by_cases hb : b = []
      · exact .isFalse (by
          rintro ⟨o, f, ho, hf, he⟩
          injection he with h1 h2
          injection h2 with h2 _
          exact hf (h2 ▸ hb))
      · exact .isTrue ⟨a, b, ha, hb, rfl⟩
  | [] => exact .isFalse (by rintro ⟨o, f, _, _, he⟩; cases he)
  | [a] => exact .isFalse (by rintro ⟨o, f, _, _, he⟩; cases he)
  | a :: b :: c :: l => exact .isFalse (by rintro ⟨o, f, _, _, he⟩; cases he)

/-- `kraResolve` produced the "wrong id" (malformed identifier) error. -/
def isMalformedOutcome (r : Except KRAErr PublicKey) : Prop :=
  ∃ parts, r = .error (.malformedIdentifier parts)

instance (r : Except KRAErr PublicKey) : Decidable (isMalformedOutcome r) := by
  unfold isMalformedOutcome
  match r with
  | .error (.malformedIdentifier p) => exact .isTrue ⟨p, rfl⟩
  | .error (.fetcher e) => exact .isFalse (by rintro ⟨p, hp⟩; cases hp)
  | .ok pk => exact .isFalse (by rintro ⟨p, hp⟩; cases hp)

/-- Maps a fetcher outcome into a `Resolve` outcome: success unchanged,
fetcher error propagated unchanged (wrapped in the error inductive's
`fetcher` constructor, which marks provenance only). -/
def mapFetchOutcome : Except Chars PublicKey → Except KRAErr PublicKey
  | .ok pk => .ok pk
  | .error e => .error (.fetcher e)

/-- A concrete fetcher used by witnesses: always succeeds, echoing its
arguments into the returned key value. -/
def fetchW : PublicKeyFetcher :=
  fun owner keyID => .ok ⟨"Ed25519VerificationKey2018".toList, owner ++ keyID⟩

/-! ## DID document model and destination resolution

The implementations of `CreateDestination`, `GetDestination` and
`LookupRecipientKeys` are not under src/ (only their tests,
src/pkg/didcomm/common/service/destination_test.go, are), so they are
modelled from the spec (§3, §4.1, §4.2, §7, §8), with the tests fixing the
observable messages. -/

/-- Modelled from the spec: a DID Document `Service` (§3). -/
structure Service where
  id : Chars
  type : Chars
  serviceEndpoint : Chars
  priority : Nat
  recipientKeys : List Chars
  routingKeys : List Chars
deriving DecidableEq

/-- Modelled from the spec: a DID Document `Public Key` (§3). -/
structure PublicKeyDoc where
  id : Chars
  type : Chars
  controller : Chars
  value : Chars
deriving DecidableEq

/-- Modelled from the spec: a DID `Document` (§3): identifier, ordered public
keys, ordered services. -/
structure DidDoc where
  id : Chars
  publicKey : List PublicKeyDoc
  service : List Service
deriving DecidableEq

/-- Modelled from the spec: the derived `Destination` projection (§3, §6). -/
structure Destination where
  serviceEndpoint : Chars
  recipientKeys : List Chars
  routingKeys : List Chars
deriving DecidableEq

/-- Modelled from the spec: the `createDestination` error kinds (§7), with the
message the tests require for the missing-service case ("missing DID doc
service"). -/
inductive DestErr
  | missingService
  | serviceTypeNotFound
  | missingEndpoint
  | noRecipientKeys
deriving DecidableEq

/-- Observable message of each `createDestination` error. -/
def DestErr.message : DestErr → Chars
  | .missingService => "create destination: missing DID doc service".toList
  | .serviceTypeNotFound => "create destination: no service of type did-communication found".toList
  | .missingEndpoint => "create destination: no service endpoint".toList
  | .noRecipientKeys => "create destination: no recipient keys".toList

/-- The messaging service type the destination resolver looks for. -/
def didCommunicationType : Chars := "did-communication".toList

/-- Modelled from the spec (§4.2 step 3): resolve one recipient/routing key
reference — a literal key value is used as-is, a `#`-carrying reference is
resolved against the Document's public keys; unresolvable references drop. -/
def resolveKeyRef (doc : DidDoc) (ref : Chars) : Option Chars :=
  if '#' ∈ ref then (doc.publicKey.find? fun pk => pk.id == ref).map PublicKeyDoc.value
  else some ref

/-- Modelled from the spec: `createDestination(document)` (§4.2): locate the
first "did-communication" service (`MissingService` when there are no
services at all, `ServiceTypeNotFound` when none matches), require a
non-empty endpoint (`MissingEndpoint`), resolve recipient keys requiring at
least one (`NoRecipientKeys`), resolve routing keys (may be empty). -/
def createDestination (doc : DidDoc) : Except DestErr Destination :=
  if doc.service.isEmpty then .error .missingService
  else
    match doc.service.find? fun svc => svc.type == didCommunicationType with
    | none => .error .serviceTypeNotFound
    | some svc =>
      if svc.serviceEndpoint.isEmpty then .error .missingEndpoint
      else
        match svc.recipientKeys.filterMap (resolveKeyRef doc) with
        | [] => .error .noRecipientKeys
        | k :: ks => .ok ⟨svc.serviceEndpoint, k :: ks, svc.routingKeys.filterMap (resolveKeyRef doc)⟩

/-- Modelled from the spec: `getDestination` error kinds: a registry
resolution failure preserving the underlying cause, or a `createDestination`
failure. -/
inductive GetDestErr
  | resolutionFailed (cause : Chars)
  | destination (e : DestErr)
deriving DecidableEq

/-- Observable message of each `getDestination` error; a resolution failure
wraps the registry's cause message verbatim with context. -/
def GetDestErr.message : GetDestErr → Chars
  | .resolutionFailed cause => "getDestination: failed to get did doc from did: ".toList ++ cause
  | .destination e => e.message

/-- Modelled from the spec: `getDestination(identifier, registry)` (§4.2):
resolve the Document via the registry, propagating a registry error verbatim
with context, then delegate to `createDestination`. -/
def getDestination (id : Chars) (registry : Chars → Except Chars DidDoc) :
    Except GetDestErr Destination :=
  match registry id with
  | .error e => .error (.resolutionFailed e)
  | .ok doc =>
    match createDestination doc with
    | .error e => .error (.destination e)
    | .ok d => .ok d

/-- Modelled from the spec (§4.1): the ordered key values the first
`serviceType` service resolves to — a reference contributes its key's value
iff it names a Document public key whose type equals `keyType`. -/
def resolvedServiceKeys (doc : DidDoc) (svc : Service) (keyType : Chars) : List Chars :=
  svc.recipientKeys.filterMap fun ref =>
    match doc.publicKey.find? fun pk => pk.id == ref with
    | none => none
    | some pk => if pk.type == keyType then some pk.value else none

/-- Modelled from the spec: `lookupRecipientKeys(document, serviceType,
keyType)` (§4.1): find the first service of the given type (not-found when
none), resolve its recipient-key references against public keys of the given
key type, dropping mismatches silently; not-found when the result is empty.
The outcome is a `(keys, found)` pair — there is no error channel. -/
def lookupRecipientKeys (doc : DidDoc) (serviceType keyType : Chars) : List Chars × Bool :=
  match doc.service.find? fun svc => svc.type == serviceType with
  | none => ([], false)
  | some svc =>
    match resolvedServiceKeys doc svc keyType with
    | [] => ([], false)
    | k :: ks => (k :: ks, true)

/-- A concrete public key used by witnesses, shaped like the one the tests
build. -/
def pkDocW : PublicKeyDoc :=
  { id := "did:test:abc#keys-1".toList
    type := "Ed25519VerificationKey2018".toList
    controller := "did:test:abc".toList
    value := "76HmFbj8sds7jjdnZ4hMVcQgtUYZpEN1HEmPnCrH2Bby".toList }

/-- A concrete did-communication service used by witnesses, referencing
`pkDocW`. -/
def svcW : Service :=
  { id := "did:test:abc#endpoint-1".toList
    type := "did-communication".toList
    serviceEndpoint := "http://localhost:58416".toList
    priority := 0
    recipientKeys := ["did:test:abc#keys-1".toList]
    routingKeys := [] }

/-- A concrete DID document used by witnesses, shaped like the one the tests
build: one Ed25519 public key and one did-communication service referencing
it. -/
def docW : DidDoc :=
  { id := "did:test:abc".toList
    publicKey := [pkDocW]
    service := [svcW] }

/-- A concrete DID document with no services at all. -/
def docEmptyW : DidDoc :=
  { id := "did:test:empty".toList, publicKey := [pkDocW], service := [] }

/-- A concrete registry that always fails resolution. -/
def registryErrW : Chars → Except Chars DidDoc :=
  fun _ => .error "resolver error".toList

/-- One string occurs inside another (substring as contiguous infix). -/
def isSubstrOf (needle haystack : Chars) : Prop :=
  ∃ p q, haystack = p ++ needle ++ q

/-! ## Linked data proof engine

src/pkg/doc/verifiable/linked_data_proof.go holds `addLinkedDataProof`,
`checkLinkedDataProof` and the suite interfaces; the `signer`/`verifier`
packages and `decodeProof` they delegate to are not under src/, so those are
modelled from the spec (§4.4): signing canonicalizes document + proof
options, digests, signs, embeds under the representation's field and appends
the new proof; verification resolves each accepted proof's verification
method through the key resolver adapter, canonicalizes identically and
verifies the signature payload. -/

/-- `SignatureRepresentation` (src/pkg/doc/verifiable/linked_data_proof.go:76-85):
`proofValue` or detached `jws`. -/
inductive SignatureRepresentation
  | proofValue
  | jws
deriving DecidableEq

/-- A Linked Data Proof as carried by a JSON-LD document (spec §3, §6):
type, optional created timestamp, verification method, and exactly one of
`proofValue` / `jws` populated. -/
structure Proof where
  type : Chars
  created : Option Chars
  verificationMethod : Chars
  proofValue : Option Chars
  jws : Option Chars
deriving DecidableEq

/-- The proof options canonicalized together with the document content: the
proof metadata excluding the signature payload (spec §4.4). -/
structure ProofOptions where
  signatureType : Chars
  created : Option Chars
  verificationMethod : Chars
deriving DecidableEq

/-- Modelled from the spec: a Signer Suite capability set (§6): canonicalize
(of content paired with proof options), digest (infallible, as
`GetDigest(doc []byte) []byte` in the source interface), accept, compact
flag, and sign. -/
structure SignerSuite where
  getCanonicalDocument : Chars → ProofOptions → Except Chars Chars
  getDigest : Chars → Chars
  accept : Chars → Bool
  compactProof : Bool
  sign : Chars → Except Chars Chars

/-- Modelled from the spec: a Verifier Suite capability set (§6): the base
capabilities plus `verify(publicKey, doc, signature)`. -/
structure VerifierSuite where
  getCanonicalDocument : Chars → ProofOptions → Except Chars Chars
  getDigest : Chars → Chars
  accept : Chars → Bool
  compactProof : Bool
  verify : PublicKey → Chars → Chars → Except Chars Unit

/-- `LinkedDataProofContext`
(src/pkg/doc/verifiable/linked_data_proof.go:87-94). -/
structure LinkedDataProofContext where
  signatureType : Chars
  suite : SignerSuite
  signatureRepresentation : SignatureRepresentation
  created : Option Chars
  verificationMethod : Chars

/-- A JSON-LD document (VC or VP) as the engine sees it: either well-formed —
opaque content plus its ordered proof sequence — or malformed bytes that fail
parsing. -/
inductive JsonLdDoc
  | wellFormed (content : Chars) (proofs : List Proof)
  | malformed (raw : Chars)
deriving DecidableEq

/-- `addLinkedDataProof` error kinds (spec §4.4, §7): a suite-step failure
wrapped with context preserving the cause ("add linked data proof: %w"), or
a document-parse failure. -/
inductive AddProofErr
  | signingFailed (cause : Chars)
  | malformedDocument
deriving DecidableEq

/-- `checkLinkedDataProof` error kinds (spec §4.4, §7). -/
inductive CheckErr
  | malformedDocument
  | keyResolutionFailed (e : KRAErr)
  | verificationFailed (cause : Chars)
deriving DecidableEq

/-- The proof options built from a signing context
(`mapContext`, src/pkg/doc/verifiable/linked_data_proof.go:136-143). -/
def optionsFromContext (ctx : LinkedDataProofContext) : ProofOptions :=
  ⟨ctx.signatureType, ctx.created, ctx.verificationMethod⟩

/-- Modelled from the spec: the proof the signer embeds — context metadata
plus the signature under the representation-appropriate field (`proofValue`
for ProofValue, `jws` for DetachedSignature). -/
def proofFromContext (ctx : LinkedDataProofContext) (sig : Chars) : Proof :=
  { type := ctx.signatureType
    created := ctx.created
    verificationMethod := ctx.verificationMethod
    proofValue := match ctx.signatureRepresentation with
      | .proofValue => some sig
      | .jws => none
    jws := match ctx.signatureRepresentation with
      | .proofValue => none
      | .jws => some sig }

/-- Modelled from the spec: `signer.New(suite).Sign(context, bytes)` (§4.4
Signing steps 1-2): parse the document, canonicalize content + proof options
(suite-level compaction is internal to the supplied canonicalization
capability), digest, sign, and embed the new proof appended after the
existing ones.  Suite failures surface as `signingFailed` carrying the
suite's cause, per the "add linked data proof: %w" wrap in the source. -/
def signDocument (ctx : LinkedDataProofContext) (doc : JsonLdDoc) :
    Except AddProofErr JsonLdDoc :=
  match doc with
  | .malformed _ => .error .malformedDocument
  | .wellFormed content proofs =>
    match ctx.suite.getCanonicalDocument content (optionsFromContext ctx) with
    | .error e => .error (.signingFailed e)
    | .ok canonical =>
      match ctx.suite.sign (ctx.suite.getDigest canonical) with
      | .error e => .error (.signingFailed e)
      | .ok sig => .ok (.wellFormed content (proofs ++ [proofFromContext ctx sig]))

/-- `addLinkedDataProof` (src/pkg/doc/verifiable/linked_data_proof.go:110-134):
sign the document, then parse the resulting document's proof field back out
and return the proof sequence. -/
def addLinkedDataProof (ctx : LinkedDataProofContext) (doc : JsonLdDoc) :
    Except AddProofErr (List Proof) :=
  match signDocument ctx doc with
  | .error e => .error e
  | .ok (.wellFormed _ proofs) => .ok proofs
  | .ok (.malformed _) => .error .malformedDocument

/-- The proof options recovered from an embedded proof for verification:
its metadata without the signature payload (spec §4.4 Verification step 3). -/
def proofOptionsOf (p : Proof) : ProofOptions :=
  ⟨p.type, p.created, p.verificationMethod⟩

/-- The signature payload of a proof: `proofValue` if present, else `jws`
(exactly one is populated per proof, spec §6). -/
def proofSignature (p : Proof) : Option Chars :=
  match p.proofValue with
  | some v => some v
  | none => p.jws

/-- Modelled from the spec: verification of a single embedded proof (§4.4
Verification steps 2-5): resolve the verification method through the key
resolver adapter, canonicalize content + proof metadata, digest, and verify
the signature payload against the resolved key. -/
def verifyProof (suite : VerifierSuite) (fetch : PublicKeyFetcher) (content : Chars)
    (p : Proof) : Except CheckErr Unit :=
  match kraResolve fetch p.verificationMethod with
  | .error e => .error (.keyResolutionFailed e)
  | .ok pk =>
    match suite.getCanonicalDocument content (proofOptionsOf p) with
    | .error e => .error (.verificationFailed e)
    | .ok canonical =>
      match proofSignature p with
      | none => .error (.verificationFailed "no signature value".toList)
      | some sig =>
        match suite.verify pk (suite.getDigest canonical) sig with
        | .error e => .error (.verificationFailed e)
        | .ok _ => .ok ()

/-- Modelled from the spec: verify each embedded proof whose type the
supplied suite `Accept`s, ignoring the others (§4.4 Verification step 2 and
the suite-dispatch note). -/
def verifyAcceptedProofs (suite : VerifierSuite) (fetch : PublicKeyFetcher)
    (content : Chars) : List Proof → Except CheckErr Unit
  | [] => .ok ()
  | p :: ps =>
    if suite.accept p.type then
      match verifyProof suite fetch content p with
      | .error e => .error e
      | .ok _ => verifyAcceptedProofs suite fetch content ps
    else verifyAcceptedProofs suite fetch content ps

/-- `checkLinkedDataProof`
(src/pkg/doc/verifiable/linked_data_proof.go:96-105): build the key resolver
adapter over the fetcher and verify the document's embedded proofs. -/
def checkLinkedDataProof (doc : JsonLdDoc) (suite : VerifierSuite)
    (fetch : PublicKeyFetcher) : Except CheckErr Unit :=
  match doc with
  | .malformed _ => .error .malformedDocument
  | .wellFormed content proofs => verifyAcceptedProofs suite fetch content proofs

/-- A concrete signer suite used by witnesses and counterexamples: total
canonicalization (content followed by the options' signature type), identity
digest, signature by prefixing a marker character. -/
def signerSuiteW : SignerSuite :=
  { getCanonicalDocument := fun content opts => .ok (content ++ opts.signatureType)
    getDigest := fun d => d
    accept := fun t => t == "Ed25519Signature2018".toList
    compactProof := false
    sign := fun d => .ok ('s' :: d) }

/-- The verifier suite matching `signerSuiteW`: same canonicalization and
digest, accepting the same type, verifying exactly the signatures
`signerSuiteW` produces under the witness key. -/
def verifierSuiteW : VerifierSuite :=
  { getCanonicalDocument := fun content opts => .ok (content ++ opts.signatureType)
    getDigest := fun d => d
    accept := fun t => t == "Ed25519Signature2018".toList
    compactProof := false
    verify := fun pk d sig =>
      if pk == ⟨"Ed25519VerificationKey2018".toList, "did:test:abc".toList ++ '#' :: "keys-1".toList⟩
          && sig == 's' :: d
        then .ok ()
        else .error "ed25519: invalid signature".toList }

/-- A concrete signing context used by witnesses and counterexamples. -/
def ctxW : LinkedDataProofContext :=
  { signatureType := "Ed25519Signature2018".toList
    suite := signerSuiteW
    signatureRepresentation := .proofValue
    created := some "2020-01-01T10:54:01Z".toList
    verificationMethod := "did:test:abc#keys-1".toList }

/-- A pre-existing proof with a garbage signature value, of a type
`verifierSuiteW` accepts. -/
def badPriorProofW : Proof :=
  { type := "Ed25519Signature2018".toList
    created := none
    verificationMethod := "did:test:abc#keys-1".toList
    proofValue := some "garbage".toList
    jws := none }

/-! ## Timestamp formatting: `TimeWithTrailingZeroMsec`

The util file appended to src/pkg/didcomm/common/service/destination_test.go
defines `TimeWithTrailingZeroMsec`, `ParseTimeWithTrailingZeroMsec`,
`MarshalJSON` and `keepTrailingZerosMsecFormat`.  They delegate to the Go
standard library's `time.Parse(time.RFC3339, ·)`, `time.Time.MarshalJSON`
and `AppendFormat`, which are embedded here following Go 1.14 semantics:

* parsing reads the fixed-width `2006-01-02T15:04:05` fields, an optional
  fraction `.` followed by one or more digits (atoi value must be below 1e9;
  scaled up to nanoseconds only when at most 9 digits were given), and a
  timezone `Z` or `±hh:mm`, with month/day/hour/minute/second range checks
  and the whole input consumed;
* `AppendFormat` with a `.000...0` fraction field caps the printed fraction
  at 9 digits (`formatNano`'s `if n > 9 then n = 9`);
* `Time.MarshalJSON` formats RFC3339Nano (fraction with trailing zeros
  trimmed, omitted when zero) in quotes, after a year range check.
-/

/-- Numeric value of an ASCII digit character. -/
def digitVal? (c : Char) : Option Nat :=
  if c = '0' then some 0 else if c = '1' then some 1 else if c = '2' then some 2
  else if c = '3' then some 3 else if c = '4' then some 4 else if c = '5' then some 5
  else if c = '6' then some 6 else if c = '7' then some 7 else if c = '8' then some 8
  else if c = '9' then some 9 else none

/-- ASCII digit character of a value below ten. -/
def digitChar (n : Nat) : Char :=
  if n = 0 then '0' else if n = 1 then '1' else if n = 2 then '2' else if n = 3 then '3'
  else if n = 4 then '4' else if n = 5 then '5' else if n = 6 then '6'
  else if n = 7 then '7' else if n = 8 then '8' else '9'

/-- Read one digit. -/
def readDigit : Chars → Option (Nat × Chars)
  | [] => none
  | c :: cs =>
    match digitVal? c with
    | none => none
    | some d => some (d, cs)

/-- Read a fixed-width two-digit number (Go `getnum` with `fixed`). -/
def read2 (s : Chars) : Option (Nat × Chars) :=
  match readDigit s with
  | none => none
  | some (a, r) =>
    match readDigit r with
    | none => none
    | some (b, r2) => some (10 * a + b, r2)

/-- Read a fixed-width four-digit number (Go `stdLongYear`). -/
def read4 (s : Chars) : Option (Nat × Chars) :=
  match read2 s with
  | none => none
  | some (a, r) =>
    match read2 r with
    | none => none
    | some (b, r2) => some (100 * a + b, r2)

/-- Consume one expected literal character. -/
def expect (c : Char) : Chars → Option Chars
  | [] => none
  | c2 :: cs => if c2 = c then some cs else none

/-- Maximal run of leading digits and the remainder. -/
def readDigits : Chars → List Nat × Chars
  | [] => ([], [])
  | c :: cs =>
    match digitVal? c with
    | none => ([], c :: cs)
    | some d =>
      let p := readDigits cs
      (d :: p.1, p.2)

/-- Decimal value of a digit list (Go `atoi` on digits). -/
def digitsToNat (ds : List Nat) : Nat := ds.foldl (fun acc d => 10 * acc + d) 0

/-- Go 1.14 `parseNanoseconds` on the digit run after the dot: the atoi value
must be below 1e9; it is scaled by `10 ^ (9 - digits)` only when at most nine
digits were given (for longer runs `scaleDigits` is negative and no scaling
happens). -/
def parseNanoseconds (ds : List Nat) : Option Nat :=
  if 1000000000 ≤ digitsToNat ds then none
  else some (if ds.length ≤ 9 then digitsToNat ds * 10 ^ (9 - ds.length) else digitsToNat ds)

/-- Gregorian leap year (Go `isLeap`). -/
def isLeapYear (y : Nat) : Bool :=
  y % 4 == 0 && (!(y % 100 == 0) || y % 400 == 0)

/-- Days in a month (Go `daysIn`). -/
def daysInMonth (y m : Nat) : Nat :=
  if m == 2 then (if isLeapYear y then 29 else 28)
  else if m == 4 || m == 6 || m == 9 || m == 11 then 30
  else 31

/-- The range checks Go's `Parse` applies to the date-time fields. -/
def validRanges (y mo d h mi se : Nat) : Prop :=
  1 ≤ mo ∧ mo ≤ 12 ∧ 1 ≤ d ∧ d ≤ daysInMonth y mo ∧ h ≤ 23 ∧ mi ≤ 59 ∧ se ≤ 59

instance (y mo d h mi se : Nat) : Decidable (validRanges y mo d h mi se) := by
  unfold validRanges
  infer_instance

/-- A parsed Go time value: calendar fields, nanoseconds, and the fixed-zone
offset in seconds east of UTC. -/
structure GoTime where
  year : Nat
  month : Nat
  day : Nat
  hour : Nat
  minute : Nat
  second : Nat
  nanos : Nat
  offset : Int
deriving DecidableEq

/-- Read the fixed `2006-01-02T15:04:05` prefix of an RFC3339 string. -/
def readDateTime (s : Chars) :
    Option ((Nat × Nat × Nat × Nat × Nat × Nat) × Chars) :=
  (read4 s).bind fun py =>
  (expect '-' py.2).bind fun r1 =>
  (read2 r1).bind fun pmo =>
  (expect '-' pmo.2).bind fun r2 =>
  (read2 r2).bind fun pd =>
  (expect 'T' pd.2).bind fun r3 =>
  (read2 r3).bind fun ph =>
  (expect ':' ph.2).bind fun r4 =>
  (read2 r4).bind fun pmi =>
  (expect ':' pmi.2).bind fun r5 =>
  (read2 r5).map fun pse => ((py.1, pmo.1, pd.1, ph.1, pmi.1, pse.1), pse.2)

/-- The optional fractional second: a dot followed by one or more digits
(maximal run), converted by `parseNanoseconds`; absent otherwise. -/
def readFrac (s : Chars) : Option (Nat × Chars) :=
  match s with
  | [] => some (0, [])
  | c :: rest =>
    if c = '.' then
      if (readDigits rest).1 = [] then none
      else
        match parseNanoseconds (readDigits rest).1 with
        | none => none
        | some ns => some (ns, (readDigits rest).2)
    else some (0, c :: rest)

/-- The timezone: `Z` (UTC) or `±hh:mm` (Go `stdISO8601ColonTZ`, which does
not range-check the offset fields). -/
def parseOffset (s : Chars) : Option (Int × Chars) :=
  match s with
  | [] => none
  | c :: rest =>
    if c = 'Z' then some (0, rest)
    else if c = '+' ∨ c = '-' then
      match read2 rest with
      | none => none
      | some (hh, r1) =>
        match expect ':' r1 with
        | none => none
        | some r2 =>
          match read2 r2 with
          | none => none
          | some (mm, r3) =>
            some (if c = '-' then -((hh * 3600 + mm * 60 : Nat) : Int)
              else ((hh * 3600 + mm * 60 : Nat) : Int), r3)
    else none

/-- `time.Parse(time.RFC3339, s)`: fixed date-time prefix, optional fraction,
timezone, full consumption, range checks. -/
def parseRFC3339 (s : Chars) : Option GoTime :=
  (readDateTime s).bind fun pdt =>
  (readFrac pdt.2).bind fun pns =>
  (parseOffset pns.2).bind fun poff =>
  if poff.2 = [] ∧
      validRanges pdt.1.1 pdt.1.2.1 pdt.1.2.2.1 pdt.1.2.2.2.1 pdt.1.2.2.2.2.1 pdt.1.2.2.2.2.2
    then some ⟨pdt.1.1, pdt.1.2.1, pdt.1.2.2.1, pdt.1.2.2.2.1, pdt.1.2.2.2.2.1,
      pdt.1.2.2.2.2.2, pns.1, poff.1⟩
    else none

/-- Two-digit zero-padded rendering (Go `appendInt(·, 2)` on values < 100). -/
def pad2 (n : Nat) : Chars := [digitChar (n / 10), digitChar (n % 10)]

/-- Four-digit zero-padded rendering (values < 10000). -/
def pad4 (n : Nat) : Chars := pad2 (n / 100) ++ pad2 (n % 100)

/-- Rendering of the `2006-01-02T15:04:05` layout prefix. -/
def dtStr (y mo d h mi se : Nat) : Chars :=
  pad4 y ++ '-' :: (pad2 mo ++ '-' :: (pad2 d ++ 'T' ::
    (pad2 h ++ ':' :: (pad2 mi ++ ':' :: pad2 se))))

/-- The nine decimal digits of a nanosecond count (Go `formatNano`'s buffer). -/
def nanoDigits (ns : Nat) : List Nat :=
  [ns / 100000000 % 10, ns / 10000000 % 10, ns / 1000000 % 10, ns / 100000 % 10,
   ns / 10000 % 10, ns / 1000 % 10, ns / 100 % 10, ns / 10 % 10, ns % 10]

/-- Go `formatNano` without trimming, for a `.00...0` layout field of `n`
zeros: a dot and the first `min n 9` nanosecond digits (the cap at nine is
Go's `if n > 9`). -/
def formatFracZeros (ns n : Nat) : Chars :=
  '.' :: ((nanoDigits ns).take (min n 9)).map digitChar

/-- Go rendering of the `Z07:00` layout field: `Z` for offset zero, else
sign and zero-padded hours and minutes of the absolute offset. -/
def formatOffsetZ (off : Int) : Chars :=
  if off = 0 then ['Z']
  else
    (if off < 0 then '-' else '+') ::
      (pad2 (off.natAbs / 60 / 60) ++ ':' :: pad2 (off.natAbs / 60 % 60))

/-- `AppendFormat` with `getTrailingZeroIncludedFormat`'s layout
`"2006-01-02T15:04:05." + k zeros + "Z07:00"`. -/
def formatWithTrailingZeros (t : GoTime) (k : Nat) : Chars :=
  dtStr t.year t.month t.day t.hour t.minute t.second ++
    formatFracZeros t.nanos k ++ formatOffsetZ t.offset

/-- Trailing zeros removed (Go `formatNano` with `trim`). -/
def dropTrailingZeros (ds : List Nat) : List Nat :=
  (ds.reverse.dropWhile fun d => d == 0).reverse

/-- The RFC3339Nano fraction: trailing zeros trimmed, omitted entirely when
nothing remains. -/
def fracNanoTrimmed (ns : Nat) : Chars :=
  match dropTrailingZeros (nanoDigits ns) with
  | [] => []
  | ds => '.' :: ds.map digitChar

/-- `time.Time.MarshalJSON`: the RFC3339Nano rendering in quotes, after the
year range check. -/
def goTimeMarshalJSON (t : GoTime) : Except Chars Chars :=
  if 10000 ≤ t.year then
    .error "Time.MarshalJSON: year outside of range [0,9999]".toList
  else
    .ok ('"' :: (dtStr t.year t.month t.day t.hour t.minute t.second ++
      fracNanoTrimmed t.nanos ++ formatOffsetZ t.offset) ++ ['"'])

/-- `TimeWithTrailingZeroMsec` (util file appended to destination_test.go):
a time plus the remembered count of all-zero fractional digits. -/
structure TimeWithTrailingZeroMsec where
  time : GoTime
  trailingZerosMsecCount : Nat
deriving DecidableEq

/-- The scanning loop of `keepTrailingZerosMsecFormat` after the first dot:
count `'0'` characters; on `'Z'` the count is kept if positive; any other
character (or the end of the string) leaves the count unset (zero). -/
def scanZerosAux (z : Nat) : Chars → Nat
  | [] => 0
  | c :: cs =>
    if c = 'Z' then (if 0 < z then z else 0)
    else if c = '0' then scanZerosAux (z + 1) cs
    else 0

/-- `keepTrailingZerosMsecFormat` (destination_test.go appended util,
lines 283-311): find the first `'.'`, then scan zeros up to a `'Z'`. -/
def keepTrailingZerosMsecFormat : Chars → Nat
  | [] => 0
  | c :: cs => if c = '.' then scanZerosAux 0 cs else keepTrailingZerosMsecFormat cs

/-- `TimeWithTrailingZeroMsec.MarshalJSON` (appended util, lines 205-216):
marshal the embedded time; with a zero count return those bytes, otherwise
re-format with the trailing-zero-included layout, quoted. -/
def TimeWithTrailingZeroMsec.marshalJSON (tm : TimeWithTrailingZeroMsec) :
    Except Chars Chars :=
  match goTimeMarshalJSON tm.time with
  | .error e => .error e
  | .ok timeBytes =>
    if tm.trailingZerosMsecCount = 0 then .ok timeBytes
    else .ok ('"' :: formatWithTrailingZeros tm.time tm.trailingZerosMsecCount ++ ['"'])

/-- `ParseTimeWithTrailingZeroMsec` (appended util, lines 248-258): parse as
RFC3339 and remember the all-zero fraction count of the input string. -/
def ParseTimeWithTrailingZeroMsec (s : Chars) : Option TimeWithTrailingZeroMsec :=
  match parseRFC3339 s with
  | none => none
  | some t => some ⟨t, keepTrailingZerosMsecFormat s⟩

/-- The shape named by claim C9: the string has a (first) dot whose fraction
consists of `k ≥ 1` zero digits immediately followed by `'Z'`. -/
def hasZeroFracZ (s : Chars) : Prop :=
  ∃ preS k restS, 1 ≤ k ∧ '.' ∉ preS ∧
    s = preS ++ '.' :: (List.replicate k '0' ++ 'Z' :: restS)

theorem splitOnChar_ne_nil (sep : Char) (s : Chars) : splitOnChar sep s ≠ [] := by
  induction s with
  | nil => simp [splitOnChar]
  | cons c cs ih =>
    unfold splitOnChar
    by_cases h : c = sep
    · simp [h]
    · simp only [h, if_false]
      match hm : splitOnChar sep cs with
      | [] => simp
      | p :: ps => simp

theorem splitOnChar_length (sep : Char) (s : Chars) :
    (splitOnChar sep s).length = s.count sep + 1 := by
  induction s with
  | nil => simp [splitOnChar]
  | cons c cs ih =>
    unfold splitOnChar
    by_cases h : c = sep
    · simp [h, List.count_cons, ih]
    · simp only [h, if_false]
      match hm : splitOnChar sep cs with
      | [] => exact absurd hm (splitOnChar_ne_nil sep cs)
      | p :: ps =>
        rw [hm] at ih
        simp only [List.length_cons] at ih ⊢
        rw [List.count_cons]
        simp only [beq_iff_eq, h, if_false]
        omega

theorem splitOnChar_pair_of_count_one (sep : Char) (s : Chars) (h : s.count sep = 1) :
    ∃ a b, splitOnChar sep s = [a, b] := by
  have hl := splitOnChar_length sep s
  rw [h] at hl
  match hm : splitOnChar sep s with
  | [a, b] => exact ⟨a, b, rfl⟩
  | [] =>
    rw [hm] at hl
    simp only [List.length_cons, List.length_nil] at hl
    omega
  | [a] =>
    rw [hm] at hl
    simp only [List.length_cons, List.length_nil] at hl
    omega
  | a :: b :: c :: l =>
    rw [hm] at hl
    simp only [List.length_cons, List.length_nil] at hl
    omega

/-- On a two-part split, `Resolve` is exactly the fetcher's outcome. -/
theorem kraResolve_pair (fetch : PublicKeyFetcher) (id a b : Chars)
    (hm : splitOnChar '#' id = [a, b]) :
    kraResolve fetch id = mapFetchOutcome (fetch a ('#' :: b)) := by
  unfold kraResolve
  rw [hm]
  show (match fetch a ('#' :: b) with
    | Except.error e => Except.error (KRAErr.fetcher e)
    | Except.ok pk => Except.ok pk) = mapFetchOutcome (fetch a ('#' :: b))
  cases fetch a ('#' :: b) <;> rfl

/-- On a split that is not a two-element list, `Resolve` fails with the
malformed-identifier error carrying the split. -/
theorem kraResolve_not_pair (fetch : PublicKeyFetcher) (id : Chars) (parts : List Chars)
    (hm : splitOnChar '#' id = parts) (hshape : ∀ a b, parts ≠ [a, b]) :
    kraResolve fetch id = .error (.malformedIdentifier parts) := by
  unfold kraResolve
  rw [hm]
  match parts, hshape with
  | [], _ => rfl
  | [a], _ => rfl
  | [a, b], hs => exact absurd rfl (hs a b)
  | a :: b :: c :: l, _ => rfl

theorem not_malformed_mapFetch (r : Except Chars PublicKey) :
    ¬ isMalformedOutcome (mapFetchOutcome r) := by
  rintro ⟨parts, hp⟩
  cases r <;> simp [mapFetchOutcome] at hp

/-- C1 counterexample: at the identifier `"#keys-1"` (exactly one `#`, empty
owner part) the claim "Resolve fails with MalformedIdentifier iff the id does
not split into exactly two non-empty parts" is false: the owner part is empty,
yet `Resolve` does not fail with the malformed-identifier error — the source
only checks `len(idSplit) != 2`, never emptiness of the parts. -/
theorem c1_counterexample :
    ¬ (isMalformedOutcome (kraResolve fetchW "#keys-1".toList) ↔
        ¬ specTwoNonemptyParts "#keys-1".toList) := by
  decide

/-- C1 (amended): `keyResolverAdapter.Resolve` fails with the
malformed-identifier error iff the identifier does not split on `#` into
exactly two (possibly empty) parts — equivalently, iff the identifier does not
contain exactly one `#` character. -/
theorem c1_amended_malformed_iff_not_two_parts (fetch : PublicKeyFetcher) (id : Chars) :
    (isMalformedOutcome (kraResolve fetch id) ↔ (splitOnChar '#' id).length ≠ 2) ∧
    ((splitOnChar '#' id).length ≠ 2 ↔ id.count '#' ≠ 1) := by
  constructor
  · constructor
    · intro hmal h2
      obtain ⟨a, b, hm⟩ : ∃ a b, splitOnChar '#' id = [a, b] := by
        match hmm : splitOnChar '#' id with
        | [a, b] => exact ⟨a, b, rfl⟩
        | [] => exact absurd hmm (splitOnChar_ne_nil '#' id)
        | [a] => rw [hmm] at h2; simp at h2
        | a :: b :: c :: l =>
          rw [hmm] at h2
          simp only [List.length_cons] at h2
          omega
      rw [kraResolve_pair fetch id a b hm] at hmal
      exact not_malformed_mapFetch _ hmal
    · intro h2
      match hm : splitOnChar '#' id with
      | [a, b] => rw [hm] at h2; simp at h2
      | [] => exact absurd hm (splitOnChar_ne_nil '#' id)
      | [a] =>
        exact ⟨[a], kraResolve_not_pair fetch id [a] hm (by intro x y hxy; simp at hxy)⟩
      | a :: b :: c :: l =>
        exact ⟨a :: b :: c :: l,
          kraResolve_not_pair fetch id (a :: b :: c :: l) hm
            (by intro x y hxy; simp at hxy)⟩
  · rw [splitOnChar_length]
    omega

/-- C5: on every identifier that splits into `[owner, fragment]`, `Resolve`
calls the fetcher exactly once, with the owner and `"#" + fragment`, and
returns the fetcher's key unchanged on success or its error unchanged on
failure. -/
theorem c5_resolve_calls_fetch_once (fetch : PublicKeyFetcher) (id owner fragment : Chars)
    (h : splitOnChar '#' id = [owner, fragment]) :
    kraResolveCalls id = [(owner, '#' :: fragment)] ∧
    (∀ pk, fetch owner ('#' :: fragment) = .ok pk → kraResolve fetch id = .ok pk) ∧
    (∀ e, fetch owner ('#' :: fragment) = .error e →
      kraResolve fetch id = .error (.fetcher e)) := by
  refine ⟨?_, ?_, ?_⟩
  · unfold kraResolveCalls
    rw [h]
  · intro pk hf
    rw [kraResolve_pair fetch id owner fragment h, hf]
    rfl
  · intro e hf
    rw [kraResolve_pair fetch id owner fragment h, hf]
    rfl

/-- Witness for C5 at a concrete identifier and fetcher. -/
theorem c5_witness :
    splitOnChar '#' "did:example:123#keys-1".toList =
      ["did:example:123".toList, "keys-1".toList] ∧
    (kraResolveCalls "did:example:123#keys-1".toList =
        [("did:example:123".toList, '#' :: "keys-1".toList)] ∧
      (∀ pk, fetchW "did:example:123".toList ('#' :: "keys-1".toList) = .ok pk →
        kraResolve fetchW "did:example:123#keys-1".toList = .ok pk) ∧
      (∀ e, fetchW "did:example:123".toList ('#' :: "keys-1".toList) = .error e →
        kraResolve fetchW "did:example:123#keys-1".toList = .error (.fetcher e))) :=
  ⟨by decide,
   c5_resolve_calls_fetch_once fetchW "did:example:123#keys-1".toList
     "did:example:123".toList "keys-1".toList (by decide)⟩

/-- C10: every identifier containing exactly one `#` — including an empty
owner or empty fragment part — is not rejected as malformed: `Resolve` invokes
the fetcher on the (possibly empty) owner and `"#" + fragment`, and its
outcome is exactly the fetcher's outcome. -/
theorem c10_single_hash_never_malformed (fetch : PublicKeyFetcher) (id : Chars)
    (h : id.count '#' = 1) :
    ∃ owner fragment, splitOnChar '#' id = [owner, fragment] ∧
      ¬ isMalformedOutcome (kraResolve fetch id) ∧
      kraResolve fetch id = mapFetchOutcome (fetch owner ('#' :: fragment)) := by
  obtain ⟨a, b, hm⟩ := splitOnChar_pair_of_count_one '#' id h
  refine ⟨a, b, hm, ?_, kraResolve_pair fetch id a b hm⟩
  rw [kraResolve_pair fetch id a b hm]
  exact not_malformed_mapFetch _

/-- Witness for C10 at `"did:x#"` (one `#`, empty fragment part). -/
theorem c10_witness :
    ("did:x#".toList.count '#' = 1) ∧
    (∃ owner fragment, splitOnChar '#' "did:x#".toList = [owner, fragment] ∧
      ¬ isMalformedOutcome (kraResolve fetchW "did:x#".toList) ∧
      kraResolve fetchW "did:x#".toList =
        mapFetchOutcome (fetchW owner ('#' :: fragment))) :=
  ⟨by decide, c10_single_hash_never_malformed fetchW "did:x#".toList (by decide)⟩

/-- C6: a Document whose service list is empty fails `createDestination` with
`MissingService`, whose message contains "missing DID doc service", and that
error kind is distinct from the `ServiceTypeNotFound` kind produced when
services exist but none has type "did-communication". -/
theorem c6_missing_service_distinct (doc : DidDoc) (h : doc.service = []) :
    createDestination doc = .error .missingService ∧
    isSubstrOf "missing DID doc service".toList (DestErr.message .missingService) ∧
    DestErr.missingService ≠ DestErr.serviceTypeNotFound ∧
    (∀ doc2 : DidDoc, doc2.service ≠ [] →
      (∀ svc ∈ doc2.service, svc.type ≠ didCommunicationType) →
      createDestination doc2 = .error .serviceTypeNotFound) := by
  refine ⟨?_, ?_, ?_, ?_⟩
  · simp [createDestination, h]
  · exact ⟨"create destination: ".toList, [], by decide⟩
  · decide
  · intro doc2 h2 hall
    have hne : doc2.service.isEmpty = false := by
      cases hs : doc2.service with
      | nil => exact absurd hs h2
      | cons a l => rfl
    have hf : doc2.service.find? (fun svc => svc.type == didCommunicationType) = none := by
      rw [List.find?_eq_none]
      intro svc hsvc
      simp only [beq_iff_eq]
      exact hall svc hsvc
    simp [createDestination, hne, hf]

/-- Witness for C6 at a concrete document with no services. -/
theorem c6_witness :
    docEmptyW.service = [] ∧
    (createDestination docEmptyW = .error .missingService ∧
      isSubstrOf "missing DID doc service".toList (DestErr.message .missingService) ∧
      DestErr.missingService ≠ DestErr.serviceTypeNotFound ∧
      (∀ doc2 : DidDoc, doc2.service ≠ [] →
        (∀ svc ∈ doc2.service, svc.type ≠ didCommunicationType) →
        createDestination doc2 = .error .serviceTypeNotFound)) :=
  ⟨rfl, c6_missing_service_distinct docEmptyW rfl⟩

/-- C7: when the registry fails resolution with cause `E`, `getDestination`
fails with an error whose message contains `E`'s message verbatim, returning
no destination. -/
theorem c7_registry_error_propagated (id cause : Chars)
    (registry : Chars → Except Chars DidDoc) (h : registry id = .error cause) :
    getDestination id registry = .error (.resolutionFailed cause) ∧
    isSubstrOf cause (GetDestErr.message (.resolutionFailed cause)) := by
  constructor
  · unfold getDestination
    rw [h]
  · exact ⟨"getDestination: failed to get did doc from did: ".toList, [],
      by simp [GetDestErr.message]⟩

/-- Witness for C7 at a concrete failing registry. -/
theorem c7_witness :
    registryErrW "did:test:abc".toList = .error "resolver error".toList ∧
    (getDestination "did:test:abc".toList registryErrW =
        .error (.resolutionFailed "resolver error".toList) ∧
      isSubstrOf "resolver error".toList
        (GetDestErr.message (.resolutionFailed "resolver error".toList))) :=
  ⟨rfl, c7_registry_error_propagated "did:test:abc".toList "resolver error".toList
    registryErrW rfl⟩

/-- C8: `lookupRecipientKeys` is total with a boolean not-found flag and no
error channel: not-found always comes with an empty key sequence; it is
returned when no service matches, when the matched service's recipient-key
list is empty, and when the resolved sequence is empty (e.g. all referenced
keys have a different type); a non-empty resolved sequence is returned with
found = true. -/
theorem c8_lookup_not_found_flag (doc : DidDoc) (serviceType keyType : Chars) :
    ((lookupRecipientKeys doc serviceType keyType).2 = false →
      (lookupRecipientKeys doc serviceType keyType).1 = []) ∧
    (doc.service.find? (fun svc => svc.type == serviceType) = none →
      lookupRecipientKeys doc serviceType keyType = ([], false)) ∧
    (∀ svc, doc.service.find? (fun svc => svc.type == serviceType) = some svc →
      svc.recipientKeys = [] →
      lookupRecipientKeys doc serviceType keyType = ([], false)) ∧
    (∀ svc, doc.service.find? (fun svc => svc.type == serviceType) = some svc →
      resolvedServiceKeys doc svc keyType = [] →
      lookupRecipientKeys doc serviceType keyType = ([], false)) ∧
    (∀ svc k ks, doc.service.find? (fun svc => svc.type == serviceType) = some svc →
      resolvedServiceKeys doc svc keyType = k :: ks →
      lookupRecipientKeys doc serviceType keyType = (k :: ks, true)) := by
  refine ⟨?_, ?_, ?_, ?_, ?_⟩
  · intro hflag
    cases hf : doc.service.find? fun svc => svc.type == serviceType with
    | none => simp [lookupRecipientKeys, hf]
    | some svc =>
      cases hr : resolvedServiceKeys doc svc keyType with
      | nil => simp [lookupRecipientKeys, hf, hr]
      | cons k ks => simp [lookupRecipientKeys, hf, hr] at hflag
  · intro hf
    simp [lookupRecipientKeys, hf]
  · intro svc hf hempty
    have hr : resolvedServiceKeys doc svc keyType = [] := by
      simp [resolvedServiceKeys, hempty]
    simp [lookupRecipientKeys, hf, hr]
  · intro svc hf hr
    simp [lookupRecipientKeys, hf, hr]
  · intro svc k ks hf hr
    simp [lookupRecipientKeys, hf, hr]

/-- Witness for C8 at the concrete test-shaped document: the referenced key
resolves, so lookup succeeds with found = true; with an unmatched key type the
flag is false and the sequence empty. -/
theorem c8_witness :
    docW.service.find? (fun svc => svc.type == didCommunicationType) = some svcW ∧
    resolvedServiceKeys docW svcW "Ed25519VerificationKey2018".toList =
      ["76HmFbj8sds7jjdnZ4hMVcQgtUYZpEN1HEmPnCrH2Bby".toList] ∧
    lookupRecipientKeys docW didCommunicationType "Ed25519VerificationKey2018".toList =
      (["76HmFbj8sds7jjdnZ4hMVcQgtUYZpEN1HEmPnCrH2Bby".toList], true) :=
  ⟨by decide, by decide,
   (c8_lookup_not_found_flag docW didCommunicationType
      "Ed25519VerificationKey2018".toList).2.2.2.2 svcW
      "76HmFbj8sds7jjdnZ4hMVcQgtUYZpEN1HEmPnCrH2Bby".toList [] (by decide) (by decide)⟩

theorem proofSignature_proofFromContext (ctx : LinkedDataProofContext) (sig : Chars) :
    proofSignature (proofFromContext ctx sig) = some sig := by
  cases hr : ctx.signatureRepresentation <;> simp [proofFromContext, proofSignature, hr]

theorem verifyAcceptedProofs_cons (V : VerifierSuite) (fetch : PublicKeyFetcher)
    (content : Chars) (p : Proof) (ps : List Proof) :
    verifyAcceptedProofs V fetch content (p :: ps) =
      if V.accept p.type then
        match verifyProof V fetch content p with
        | .error e => .error e
        | .ok _ => verifyAcceptedProofs V fetch content ps
      else verifyAcceptedProofs V fetch content ps := rfl

theorem verifyAcceptedProofs_append (V : VerifierSuite) (fetch : PublicKeyFetcher)
    (content : Chars) (l1 l2 : List Proof)
    (h : ∀ p ∈ l1, V.accept p.type = true → verifyProof V fetch content p = .ok ()) :
    verifyAcceptedProofs V fetch content (l1 ++ l2) =
      verifyAcceptedProofs V fetch content l2 := by
  induction l1 with
  | nil => rfl
  | cons p ps ih =>
    rw [List.cons_append, verifyAcceptedProofs_cons]
    by_cases ha : V.accept p.type
    · rw [if_pos ha, h p (List.mem_cons_self p ps) ha]
      show verifyAcceptedProofs V fetch content (ps ++ l2) =
        verifyAcceptedProofs V fetch content l2
      exact ih fun q hq hacc => h q (List.mem_cons_of_mem p hq) hacc
    · rw [if_neg ha]
      exact ih fun q hq hacc => h q (List.mem_cons_of_mem p hq) hacc

/-- C2 counterexample: the round trip as claimed — for EVERY document — is
false: with the matching witness suites and a fetcher returning the correct
key (as witnessed by the clean round trip succeeding in the first conjunct),
a document already carrying a non-verifying prior proof of an accepted type
signs fine but fails verification. -/
theorem c2_counterexample :
    checkLinkedDataProof
      (JsonLdDoc.wellFormed "cred-content".toList
        [proofFromContext ctxW
          ('s' :: ("cred-content".toList ++ "Ed25519Signature2018".toList))])
      verifierSuiteW fetchW = .ok () ∧
    signDocument ctxW (.wellFormed "cred-content".toList [badPriorProofW]) =
      .ok (.wellFormed "cred-content".toList
        [badPriorProofW,
         proofFromContext ctxW
           ('s' :: ("cred-content".toList ++ "Ed25519Signature2018".toList))]) ∧
    checkLinkedDataProof
      (JsonLdDoc.wellFormed "cred-content".toList
        [badPriorProofW,
         proofFromContext ctxW
           ('s' :: ("cred-content".toList ++ "Ed25519Signature2018".toList))])
      verifierSuiteW fetchW =
      .error (.verificationFailed "ed25519: invalid signature".toList) := by
  refine ⟨by decide, by decide, by decide⟩

/-- C2 (amended): the sign-then-verify round trip succeeds provided the
verifier suite shares the signer suite's canonicalization and digest, the
fetcher (through the key resolver adapter) resolves the context's
verification method to a key under which the suite's signatures verify, and
every pre-existing proof of an accepted type itself verifies — in particular
for every document carrying no prior proofs. -/
theorem c2_amended_round_trip (ctx : LinkedDataProofContext) (V : VerifierSuite)
    (fetch : PublicKeyFetcher) (content : Chars) (priors : List Proof)
    (signedDoc : JsonLdDoc) (pk : PublicKey)
    (hcanon : V.getCanonicalDocument = ctx.suite.getCanonicalDocument)
    (hdigest : V.getDigest = ctx.suite.getDigest)
    (hfetch : kraResolve fetch ctx.verificationMethod = .ok pk)
    (hverify : ∀ dgst sig, ctx.suite.sign dgst = .ok sig → V.verify pk dgst sig = .ok ())
    (hpriors : ∀ p ∈ priors, V.accept p.type = true →
      verifyProof V fetch content p = .ok ())
    (hsigned : signDocument ctx (.wellFormed content priors) = .ok signedDoc) :
    checkLinkedDataProof signedDoc V fetch = .ok () := by
  cases hc : ctx.suite.getCanonicalDocument content (optionsFromContext ctx) with
  | error e => simp [signDocument, hc] at hsigned
  | ok canonical =>
    cases hs : ctx.suite.sign (ctx.suite.getDigest canonical) with
    | error e => simp [signDocument, hc, hs] at hsigned
    | ok sig =>
      have hdoc : signedDoc = .wellFormed content (priors ++ [proofFromContext ctx sig]) := by
        simp [signDocument, hc, hs] at hsigned
        exact hsigned.symm
      subst hdoc
      show verifyAcceptedProofs V fetch content (priors ++ [proofFromContext ctx sig]) =
        .ok ()
      rw [verifyAcceptedProofs_append V fetch content priors _ hpriors,
        verifyAcceptedProofs_cons]
      by_cases ha : V.accept (proofFromContext ctx sig).type
      · rw [if_pos ha]
        have h1 : kraResolve fetch (proofFromContext ctx sig).verificationMethod = .ok pk :=
          hfetch
        have h2 : V.getCanonicalDocument content (proofOptionsOf (proofFromContext ctx sig)) =
            .ok canonical := by
          rw [hcanon]
          exact hc
        have h3 : proofSignature (proofFromContext ctx sig) = some sig :=
          proofSignature_proofFromContext ctx sig
        have h4 : V.verify pk (V.getDigest canonical) sig = .ok () := by
          rw [hdigest]
          exact hverify _ sig hs
        have hv : verifyProof V fetch content (proofFromContext ctx sig) = .ok () := by
          simp [verifyProof, h1, h2, h3, h4]
        rw [hv]
        rfl
      · rw [if_neg ha]
        rfl

/-- Witness for C2 (amended) at the concrete witness suites and a document
with no prior proofs. -/
theorem c2_witness :
    signDocument ctxW (.wellFormed "vp-content".toList []) =
      .ok (.wellFormed "vp-content".toList
        [proofFromContext ctxW
          ('s' :: ("vp-content".toList ++ "Ed25519Signature2018".toList))]) ∧
    checkLinkedDataProof
      (JsonLdDoc.wellFormed "vp-content".toList
        [proofFromContext ctxW
          ('s' :: ("vp-content".toList ++ "Ed25519Signature2018".toList))])
      verifierSuiteW fetchW = .ok () :=
  ⟨by decide,
   c2_amended_round_trip ctxW verifierSuiteW fetchW "vp-content".toList []
     (.wellFormed "vp-content".toList
       [proofFromContext ctxW
         ('s' :: ("vp-content".toList ++ "Ed25519Signature2018".toList))])
     ⟨"Ed25519VerificationKey2018".toList, "did:test:abc".toList ++ '#' :: "keys-1".toList⟩
     rfl rfl (by decide)
     (by
       intro dgst sig h
       injection h with h
       subst h
       simp [verifierSuiteW])
     (by intro p hp; cases hp)
     (by decide)⟩

/-- C3: a successful `addLinkedDataProof` returns the document's prior proof
sequence with exactly one new proof appended, priors unchanged and in order,
and the appended proof's type equal to the context's signature type. -/
theorem c3_add_proof_appends (ctx : LinkedDataProofContext) (doc : JsonLdDoc)
    (ps : List Proof) (h : addLinkedDataProof ctx doc = .ok ps) :
    ∃ content priors p, doc = .wellFormed content priors ∧ ps = priors ++ [p] ∧
      p.type = ctx.signatureType := by
  cases doc with
  | malformed raw => simp [addLinkedDataProof, signDocument] at h
  | wellFormed content priors =>
    cases hc : ctx.suite.getCanonicalDocument content (optionsFromContext ctx) with
    | error e => simp [addLinkedDataProof, signDocument, hc] at h
    | ok canonical =>
      cases hs : ctx.suite.sign (ctx.suite.getDigest canonical) with
      | error e => simp [addLinkedDataProof, signDocument, hc, hs] at h
      | ok sig =>
        refine ⟨content, priors, proofFromContext ctx sig, rfl, ?_, rfl⟩
        simp [addLinkedDataProof, signDocument, hc, hs] at h
        exact h.symm

/-- Witness for C3 at a concrete document already carrying one proof. -/
theorem c3_witness :
    addLinkedDataProof ctxW (.wellFormed "c3-content".toList [badPriorProofW]) =
      .ok [badPriorProofW,
           proofFromContext ctxW
             ('s' :: ("c3-content".toList ++ "Ed25519Signature2018".toList))] ∧
    (∃ content priors p,
      (JsonLdDoc.wellFormed "c3-content".toList [badPriorProofW] : JsonLdDoc) =
        .wellFormed content priors ∧
      [badPriorProofW,
       proofFromContext ctxW
         ('s' :: ("c3-content".toList ++ "Ed25519Signature2018".toList))] =
        priors ++ [p] ∧
      p.type = ctxW.signatureType) :=
  ⟨by decide,
   c3_add_proof_appends ctxW (.wellFormed "c3-content".toList [badPriorProofW])
     [badPriorProofW,
      proofFromContext ctxW
        ('s' :: ("c3-content".toList ++ "Ed25519Signature2018".toList))]
     (by decide)⟩

/-- C4 counterexample: `addLinkedDataProof` on an unparsable INPUT document
fails with `MalformedDocument` although no suite step failed (the context's
suite is total, succeeding on every input by construction) and no "resulting
document" exists — the claim attributes errors only to suite-step failures
and to the resulting document's proof field, so it is false here. -/
theorem c4_counterexample :
    addLinkedDataProof ctxW (.malformed "not json".toList) =
      .error .malformedDocument := by
  rfl

/-- C4 (amended): `addLinkedDataProof` returns an error exactly when the
document cannot be parsed — before signing as well as after (MalformedDocument)
— or when the suite's canonicalization or signing step fails (SigningFailed,
the suite's cause preserved; the digest step, `GetDigest`, is infallible in
the source interface); otherwise it returns the appended proof sequence and
no error.  The four cases below are exhaustive over the inputs. -/
theorem c4_amended_error_cases (ctx : LinkedDataProofContext) (doc : JsonLdDoc) :
    (∀ r, doc = .malformed r → addLinkedDataProof ctx doc = .error .malformedDocument) ∧
    (∀ content proofs e, doc = .wellFormed content proofs →
      ctx.suite.getCanonicalDocument content (optionsFromContext ctx) = .error e →
      addLinkedDataProof ctx doc = .error (.signingFailed e)) ∧
    (∀ content proofs canonical e, doc = .wellFormed content proofs →
      ctx.suite.getCanonicalDocument content (optionsFromContext ctx) = .ok canonical →
      ctx.suite.sign (ctx.suite.getDigest canonical) = .error e →
      addLinkedDataProof ctx doc = .error (.signingFailed e)) ∧
    (∀ content proofs canonical sig, doc = .wellFormed content proofs →
      ctx.suite.getCanonicalDocument content (optionsFromContext ctx) = .ok canonical →
      ctx.suite.sign (ctx.suite.getDigest canonical) = .ok sig →
      addLinkedDataProof ctx doc = .ok (proofs ++ [proofFromContext ctx sig])) := by
  refine ⟨?_, ?_, ?_, ?_⟩
  · intro r hdoc
    subst hdoc
    rfl
  · intro content proofs e hdoc hc
    subst hdoc
    simp [addLinkedDataProof, signDocument, hc]
  · intro content proofs canonical e hdoc hc hs
    subst hdoc
    simp [addLinkedDataProof, signDocument, hc, hs]
  · intro content proofs canonical sig hdoc hc hs
    subst hdoc
    simp [addLinkedDataProof, signDocument, hc, hs]

/-- Witness for C4 (amended), exercising the success case at a concrete
context and document. -/
theorem c4_witness :
    addLinkedDataProof ctxW (.wellFormed "c4-content".toList []) =
      .ok (([] : List Proof) ++
        [proofFromContext ctxW
          ('s' :: ("c4-content".toList ++ "Ed25519Signature2018".toList))]) :=
  (c4_amended_error_cases ctxW (.wellFormed "c4-content".toList [])).2.2.2
    "c4-content".toList []
    ("c4-content".toList ++ "Ed25519Signature2018".toList)
    ('s' :: ("c4-content".toList ++ "Ed25519Signature2018".toList))
    rfl (by decide) (by decide)

theorem digitVal_lt (c : Char) (d : Nat) (h : digitVal? c = some d) : d < 10 := by
  unfold digitVal? at h
  split_ifs at h <;> (injection h with h; omega)

theorem digitChar_digitVal (c : Char) (d : Nat) (h : digitVal? c = some d) :
    digitChar d = c := by
  unfold digitVal? at h
  split_ifs at h with h0 h1 h2 h3 h4 h5 h6 h7 h8 h9 <;>
    (injection h with h; subst h; simp [digitChar, *])

theorem digitChar_ne_dot (n : Nat) : digitChar n ≠ '.' := by
  unfold digitChar
  split_ifs <;> decide

theorem digitChar_ne_Z (n : Nat) : digitChar n ≠ 'Z' := by
  unfold digitChar
  split_ifs <;> decide

theorem digitChar_eq_zero_char (d : Nat) (h : digitChar d = '0') : d = 0 := by
  unfold digitChar at h
  split_ifs at h <;> first | assumption | exact absurd h (by decide)

theorem readDigit_sound (cs : Chars) (d : Nat) (r : Chars)
    (h : readDigit cs = some (d, r)) : d < 10 ∧ cs = digitChar d :: r := by
  cases cs with
  | nil => cases h
  | cons c cs2 =>
    cases hd : digitVal? c with
    | none => simp [readDigit, hd] at h
    | some d2 =>
      simp [readDigit, hd] at h
      obtain ⟨rfl, rfl⟩ := h
      exact ⟨digitVal_lt c _ hd, by rw [digitChar_digitVal c _ hd]⟩

theorem read2_sound (s : Chars) (n : Nat) (r : Chars) (h : read2 s = some (n, r)) :
    n < 100 ∧ s = pad2 n ++ r := by
  cases h1 : readDigit s with
  | none => simp [read2, h1] at h
  | some p =>
    obtain ⟨a, r1⟩ := p
    cases h2 : readDigit r1 with
    | none => simp [read2, h1, h2] at h
    | some q =>
      obtain ⟨b, r2⟩ := q
      simp [read2, h1, h2] at h
      obtain ⟨rfl, rfl⟩ := h
      obtain ⟨ha, hsa⟩ := readDigit_sound s a r1 h1
      obtain ⟨hb, hsb⟩ := readDigit_sound r1 b r2 h2
      constructor
      · omega
      · rw [hsa, hsb]
        unfold pad2
        have h10 : (10 * a + b) / 10 = a := by omega
        have hm : (10 * a + b) % 10 = b := by omega
        rw [h10, hm]
        rfl

theorem read4_sound (s : Chars) (n : Nat) (r : Chars) (h : read4 s = some (n, r)) :
    n < 10000 ∧ s = pad4 n ++ r := by
  cases h1 : read2 s with
  | none => simp [read4, h1] at h
  | some p =>
    obtain ⟨a, r1⟩ := p
    cases h2 : read2 r1 with
    | none => simp [read4, h1, h2] at h
    | some q =>
      obtain ⟨b, r2⟩ := q
      simp [read4, h1, h2] at h
      obtain ⟨rfl, rfl⟩ := h
      obtain ⟨ha, hsa⟩ := read2_sound s a r1 h1
      obtain ⟨hb, hsb⟩ := read2_sound r1 b r2 h2
      constructor
      · omega
      · rw [hsa, hsb]
        unfold pad4
        have h100 : (100 * a + b) / 100 = a := by omega
        have hm : (100 * a + b) % 100 = b := by omega
        rw [h100, hm, List.append_assoc]

theorem expect_sound (c : Char) (cs r : Chars) (h : expect c cs = some r) :
    cs = c :: r := by
  cases cs with
  | nil => cases h
  | cons c2 cs2 =>
    simp only [expect] at h
    split_ifs at h with hc
    injection h with h
    rw [hc, h]

theorem readDigits_sound (cs : Chars) :
    cs = (readDigits cs).1.map digitChar ++ (readDigits cs).2 ∧
    (∀ d ∈ (readDigits cs).1, d < 10) ∧
    (∀ c2 cs2, (readDigits cs).2 = c2 :: cs2 → digitVal? c2 = none) := by
  induction cs with
  | nil =>
    refine ⟨rfl, by simp [readDigits], ?_⟩
    intro c2 cs2 h
    cases h
  | cons c cs2 ih =>
    obtain ⟨ih1, ih2, ih3⟩ := ih
    cases hd : digitVal? c with
    | none =>
      have hr : readDigits (c :: cs2) = ([], c :: cs2) := by simp [readDigits, hd]
      rw [hr]
      refine ⟨rfl, by simp, ?_⟩
      intro c2 cs3 heq
      injection heq with heq1 _
      rw [← heq1]
      exact hd
    | some d =>
      have hr : readDigits (c :: cs2) = (d :: (readDigits cs2).1, (readDigits cs2).2) := by
        simp [readDigits, hd]
      rw [hr]
      refine ⟨?_, ?_, ih3⟩
      · simp only [List.map_cons, List.cons_append]
        rw [digitChar_digitVal c d hd]
        exact congrArg (List.cons c) ih1
      · intro d2 hd2
        rcases List.mem_cons.mp hd2 with h1 | h1
        · rw [h1]
          exact digitVal_lt c d hd
        · exact ih2 d2 h1

theorem mem_pad2 (x : Char) (n : Nat) (h : x ∈ pad2 n) : ∃ m, x = digitChar m := by
  simp [pad2] at h
  rcases h with h | h
  exacts [⟨n / 10, h⟩, ⟨n % 10, h⟩]

theorem dot_not_mem_pad2 (n : Nat) : '.' ∉ pad2 n := by
  intro hx
  obtain ⟨m, hm⟩ := mem_pad2 '.' n hx
  exact digitChar_ne_dot m hm.symm

theorem dot_not_mem_pad4 (n : Nat) : '.' ∉ pad4 n := by
  intro hx
  rcases List.mem_append.mp hx with h | h
  · exact dot_not_mem_pad2 _ h
  · exact dot_not_mem_pad2 _ h

theorem dot_not_mem_dtStr (y mo d h mi se : Nat) : '.' ∉ dtStr y mo d h mi se := by
  intro hmem
  simp only [dtStr, List.mem_append, List.mem_cons] at hmem
  rcases hmem with h1 | h1 | h1 | h1 | h1 | h1 | h1 | h1 | h1 | h1 | h1
  · exact dot_not_mem_pad4 _ h1
  · exact absurd h1 (by decide)
  · exact dot_not_mem_pad2 _ h1
  · exact absurd h1 (by decide)
  · exact dot_not_mem_pad2 _ h1
  · exact absurd h1 (by decide)
  · exact dot_not_mem_pad2 _ h1
  · exact absurd h1 (by decide)
  · exact dot_not_mem_pad2 _ h1
  · exact absurd h1 (by decide)
  · exact dot_not_mem_pad2 _ h1

theorem readDateTime_sound (s : Chars) (y mo d h mi se : Nat) (r : Chars)
    (hp : readDateTime s = some ((y, mo, d, h, mi, se), r)) :
    s = dtStr y mo d h mi se ++ r ∧ y < 10000 ∧ mo < 100 ∧ d < 100 ∧ h < 100 ∧
      mi < 100 ∧ se < 100 := by
  simp only [readDateTime, Option.bind_eq_some, Option.map_eq_some'] at hp
  obtain ⟨⟨y2, ry⟩, hy, ⟨r1, he1, ⟨⟨mo2, rmo⟩, hmo, ⟨r2, he2, ⟨⟨d2, rd⟩, hd,
    ⟨r3, he3, ⟨⟨h2, rh⟩, hh, ⟨r4, he4, ⟨⟨mi2, rmi⟩, hmi, ⟨r5, he5,
    ⟨⟨se2, rse⟩, hse, heq⟩⟩⟩⟩⟩⟩⟩⟩⟩⟩⟩ := hp
  injection heq with heq1 heq2
  injection heq1 with hy1 heq1
  injection heq1 with hmo1 heq1
  injection heq1 with hd1 heq1
  injection heq1 with hh1 heq1
  injection heq1 with hmi1 hse1
  subst hy1 hmo1 hd1 hh1 hmi1 hse1 heq2
  obtain ⟨hyb, hys⟩ := read4_sound s _ _ hy
  obtain ⟨hmob, hmos⟩ := read2_sound r1 _ _ hmo
  obtain ⟨hdb, hds⟩ := read2_sound r2 _ _ hd
  obtain ⟨hhb, hhs⟩ := read2_sound r3 _ _ hh
  obtain ⟨hmib, hmis⟩ := read2_sound r4 _ _ hmi
  obtain ⟨hseb, hses⟩ := read2_sound r5 _ _ hse
  have he1s := expect_sound '-' ry r1 he1
  have he2s := expect_sound '-' rmo r2 he2
  have he3s := expect_sound 'T' rd r3 he3
  have he4s := expect_sound ':' rh r4 he4
  have he5s := expect_sound ':' rmi r5 he5
  refine ⟨?_, hyb, hmob, hdb, hhb, hmib, hseb⟩
  rw [hys, he1s, hmos, he2s, hds, he3s, hhs, he4s, hmis, he5s, hses]
  simp [dtStr, List.append_assoc]

theorem readFrac_cases (s : Chars) (ns : Nat) (r2 : Chars)
    (h : readFrac s = some (ns, r2)) :
    (s = r2 ∧ ns = 0 ∧ ∀ rest, s ≠ '.' :: rest) ∨
    (∃ ds, ds ≠ [] ∧ s = '.' :: (ds.map digitChar ++ r2) ∧
      parseNanoseconds ds = some ns ∧ (∀ d ∈ ds, d < 10) ∧
      (∀ c2 cs2, r2 = c2 :: cs2 → digitVal? c2 = none)) := by
  cases s with
  | nil =>
    left
    simp [readFrac] at h
    obtain ⟨rfl, rfl⟩ := h
    exact ⟨rfl, rfl, fun rest hcon => by cases hcon⟩
  | cons c rest =>
    simp only [readFrac] at h
    split_ifs at h with hdot hnil
    · cases hp : parseNanoseconds (readDigits rest).1 with
      | none => rw [hp] at h; cases h
      | some ns2 =>
        rw [hp] at h
        injection h with h
        injection h with hns hr
        right
        obtain ⟨hrec, hbound, hmax⟩ := readDigits_sound rest
        refine ⟨(readDigits rest).1, hnil, ?_, ?_, hbound, ?_⟩
        · rw [hdot, ← hr]
          exact congrArg (List.cons '.') hrec
        · rw [hp, hns]
        · rw [← hr]
          exact hmax
    · left
      injection h with h
      injection h with hns hr
      refine ⟨hr.symm ▸ rfl, hns.symm, ?_⟩
      · intro rest2 hcon
        injection hcon with hc _
        exact hdot hc

theorem parseOffset_Z (rest : Chars) : parseOffset ('Z' :: rest) = some (0, rest) := by
  simp [parseOffset]

theorem parseOffset_sound (r : Chars) (off : Int) (r3 : Chars)
    (h : parseOffset r = some (off, r3)) :
    r = 'Z' :: r3 ∨
    (∃ c hh mm, (c = '+' ∨ c = '-') ∧ r = c :: (pad2 hh ++ ':' :: (pad2 mm ++ r3))) := by
  cases r with
  | nil => cases h
  | cons c rest =>
    by_cases hZ : c = 'Z'
    · left
      simp [parseOffset, hZ] at h
      rw [hZ, h.2]
    · by_cases hpm : c = '+' ∨ c = '-'
      · right
        cases h1 : read2 rest with
        | none => simp [parseOffset, hZ, hpm, h1] at h
        | some p =>
          obtain ⟨hh, r1⟩ := p
          cases h2 : expect ':' r1 with
          | none => simp [parseOffset, hZ, hpm, h1, h2] at h
          | some rr2 =>
            cases h3 : read2 rr2 with
            | none => simp [parseOffset, hZ, hpm, h1, h2, h3] at h
            | some q =>
              obtain ⟨mm, rr3⟩ := q
              simp [parseOffset, hZ, hpm, h1, h2, h3] at h
              obtain ⟨hs1a, hs1b⟩ := read2_sound rest _ _ h1
              have hs2 := expect_sound ':' r1 rr2 h2
              obtain ⟨hs3a, hs3b⟩ := read2_sound rr2 _ _ h3
              refine ⟨c, hh, mm, hpm, ?_⟩
              rw [hs1b, hs2, hs3b, h.2]
      · simp [parseOffset, hZ, hpm] at h

theorem parseOffset_no_dot (r : Chars) (off : Int)
    (h : parseOffset r = some (off, [])) : '.' ∉ r := by
  rcases parseOffset_sound r off [] h with hsh | ⟨c, hh, mm, hpm, hsh⟩
  · rw [hsh]
    decide
  · rw [hsh]
    intro hmem
    rcases List.mem_cons.mp hmem with h5 | h5
    · rcases hpm with hc | hc <;> rw [hc] at h5 <;> exact absurd h5 (by decide)
    · rcases List.mem_append.mp h5 with h6 | h6
      · exact dot_not_mem_pad2 _ h6
      · rcases List.mem_cons.mp h6 with h7 | h7
        · exact absurd h7 (by decide)
        · rcases List.mem_append.mp h7 with h8 | h8
          · exact dot_not_mem_pad2 _ h8
          · cases h8

theorem first_dot_unique (A : Chars) (X : Chars) (B Y : Chars) (hA : '.' ∉ A)
    (hB : '.' ∉ B) (h : A ++ '.' :: X = B ++ '.' :: Y) : A = B ∧ X = Y := by
  induction A generalizing B with
  | nil =>
    cases B with
    | nil => simpa using h
    | cons b B2 =>
      simp only [List.nil_append, List.cons_append, List.cons.injEq] at h
      obtain ⟨h1, _⟩ := h
      refine absurd ?_ hB
      rw [h1]
      exact List.mem_cons_self b B2
  | cons a A2 ih =>
    cases B with
    | nil =>
      simp only [List.nil_append, List.cons_append, List.cons.injEq] at h
      obtain ⟨h1, _⟩ := h
      refine absurd ?_ hA
      rw [← h1]
      exact List.mem_cons_self a A2
    | cons b B2 =>
      simp only [List.cons_append, List.cons.injEq] at h
      obtain ⟨h1, h2⟩ := h
      have hA2 : '.' ∉ A2 := fun hm => hA (List.mem_cons_of_mem a hm)
      have hB2 : '.' ∉ B2 := fun hm => hB (List.mem_cons_of_mem b hm)
      obtain ⟨hAB, hXY⟩ := ih B2 hA2 hB2 h2
      exact ⟨by rw [h1, hAB], hXY⟩

theorem map_digitChar_align (ds : List Nat) (k : Nat) (restS r2 : Chars)
    (hmax : ∀ c cs, r2 = c :: cs → digitVal? c = none)
    (heq : ds.map digitChar ++ r2 = List.replicate k '0' ++ 'Z' :: restS) :
    ds = List.replicate k 0 ∧ r2 = 'Z' :: restS := by
  induction ds generalizing k with
  | nil =>
    simp only [List.map_nil, List.nil_append] at heq
    cases k with
    | zero =>
      simp only [List.replicate, List.nil_append] at heq
      exact ⟨rfl, heq⟩
    | succ k2 =>
      rw [List.replicate_succ] at heq
      simp only [List.cons_append] at heq
      have := hmax '0' _ heq
      exact absurd this (by decide)
  | cons d ds2 ih =>
    cases k with
    | zero =>
      simp only [List.replicate, List.nil_append, List.map_cons, List.cons_append,
        List.cons.injEq] at heq
      obtain ⟨h1, _⟩ := heq
      exact absurd h1 (digitChar_ne_Z d)
    | succ k2 =>
      rw [List.replicate_succ] at heq
      simp only [List.map_cons, List.cons_append, List.cons.injEq] at heq
      obtain ⟨h1, h2⟩ := heq
      obtain ⟨ih1, ih2⟩ := ih k2 h2
      refine ⟨?_, ih2⟩
      rw [List.replicate_succ, ← ih1, digitChar_eq_zero_char d h1]

theorem digitsToNat_replicate_zero (k : Nat) :
    digitsToNat (List.replicate k 0) = 0 := by
  induction k with
  | zero => rfl
  | succ k2 ih =>
    rw [List.replicate_succ]
    unfold digitsToNat at ih ⊢
    simpa using ih

theorem parseNanoseconds_replicate_zero (k : Nat) :
    parseNanoseconds (List.replicate k 0) = some 0 := by
  unfold parseNanoseconds
  rw [digitsToNat_replicate_zero]
  simp

theorem nanoDigits_zero : nanoDigits 0 = List.replicate 9 0 := by decide

theorem scanZerosAux_zeros_Z (z m : Nat) (restS : Chars) :
    scanZerosAux z (List.replicate m '0' ++ 'Z' :: restS) =
      if z + m = 0 then 0 else z + m := by
  induction m generalizing z with
  | zero =>
    simp only [List.replicate, List.nil_append]
    unfold scanZerosAux
    rw [if_pos rfl]
    split_ifs <;> omega
  | succ m2 ih =>
    rw [List.replicate_succ]
    simp only [List.cons_append]
    unfold scanZerosAux
    rw [if_neg (by decide), if_pos rfl, ih (z + 1)]
    split_ifs <;> omega

theorem keepTrailing_shape (preS : Chars) (rest : Chars) (hpre : '.' ∉ preS) :
    keepTrailingZerosMsecFormat (preS ++ '.' :: rest) = scanZerosAux 0 rest := by
  induction preS with
  | nil =>
    simp only [List.nil_append]
    unfold keepTrailingZerosMsecFormat
    rw [if_pos rfl]
  | cons c cs ih =>
    have hc : ¬ c = '.' := fun hcc => hpre (by rw [hcc]; exact List.mem_cons_self _ _)
    simp only [List.cons_append]
    unfold keepTrailingZerosMsecFormat
    rw [if_neg hc]
    exact ih fun hm => hpre (List.mem_cons_of_mem c hm)

theorem scanZerosAux_pos_shape (tail : Chars) (z k : Nat)
    (h : scanZerosAux z tail = k) (hk : 1 ≤ k) :
    ∃ m restS, tail = List.replicate m '0' ++ 'Z' :: restS ∧ k = z + m := by
  induction tail generalizing z with
  | nil =>
    unfold scanZerosAux at h
    omega
  | cons c cs ih =>
    unfold scanZerosAux at h
    split_ifs at h with hZ h0 hzero
    · subst hZ
      exact ⟨0, cs, by simp, by omega⟩
    · omega
    · obtain ⟨m2, restS, hshape, hsum⟩ := ih (z + 1) h
      subst hzero
      refine ⟨m2 + 1, restS, ?_, by omega⟩
      rw [List.replicate_succ]
      simp [hshape]
    · omega

theorem keepTrailing_pos_shape (s : Chars) (k : Nat)
    (h : keepTrailingZerosMsecFormat s = k) (hk : 1 ≤ k) :
    ∃ preS m restS, '.' ∉ preS ∧
      s = preS ++ '.' :: (List.replicate m '0' ++ 'Z' :: restS) ∧ k = m := by
  induction s with
  | nil =>
    unfold keepTrailingZerosMsecFormat at h
    omega
  | cons c cs ih =>
    unfold keepTrailingZerosMsecFormat at h
    split_ifs at h with hdot
    · subst hdot
      obtain ⟨m, restS, hshape, hsum⟩ := scanZerosAux_pos_shape cs 0 k h hk
      exact ⟨[], m, restS, by simp, by simp [hshape], by omega⟩
    · obtain ⟨preS, m, restS, hp, hs, hm⟩ := ih h
      refine ⟨c :: preS, m, restS, ?_, by simp [hs], hm⟩
      intro hmem
      rcases List.mem_cons.mp hmem with h1 | h1
      · exact hdot h1.symm
      · exact hp h1

theorem keepTrailing_pos_iff (s : Chars) :
    1 ≤ keepTrailingZerosMsecFormat s ↔ hasZeroFracZ s := by
  constructor
  · intro h1
    obtain ⟨preS, m, restS, hp, hs, hm⟩ := keepTrailing_pos_shape s _ rfl h1
    exact ⟨preS, m, restS, by omega, hp, hs⟩
  · rintro ⟨preS, k, restS, hk, hp, rfl⟩
    rw [keepTrailing_shape preS _ hp, scanZerosAux_zeros_Z 0 k restS]
    split_ifs <;> omega

theorem parse_shape_roundtrip (s preS restS : Chars) (t : GoTime) (k : Nat)
    (hp : parseRFC3339 s = some t)
    (hshape : s = preS ++ '.' :: (List.replicate k '0' ++ 'Z' :: restS))
    (hpre : '.' ∉ preS) (hk1 : 1 ≤ k) (hk9 : k ≤ 9) :
    ParseTimeWithTrailingZeroMsec s = some ⟨t, k⟩ ∧
    TimeWithTrailingZeroMsec.marshalJSON ⟨t, k⟩ = .ok ('"' :: s ++ ['"']) := by
  have hp0 := hp
  simp only [parseRFC3339, Option.bind_eq_some] at hp
  obtain ⟨pdt, hdt, hp⟩ := hp
  obtain ⟨dtp, r⟩ := pdt
  obtain ⟨y, mo, d, h, mi, se⟩ := dtp
  obtain ⟨pns, hfr, hp⟩ := hp
  obtain ⟨ns, r2⟩ := pns
  obtain ⟨poff, hoff, hp⟩ := hp
  obtain ⟨off, r3⟩ := poff
  split_ifs at hp with hcond
  injection hp with hp
  obtain ⟨hr3, hvr⟩ := hcond
  obtain ⟨hds, hyb, _, _, _, _, _⟩ := readDateTime_sound s y mo d h mi se r hdt
  rcases readFrac_cases r ns r2 hfr with
    ⟨hrr2, hns0, hnodot⟩ | ⟨ds, hdsne, hrshape, hnsv, hdslt, hmax⟩
  · exfalso
    have hdotmem : '.' ∈ s := by rw [hshape]; simp
    rw [hds] at hdotmem
    rcases List.mem_append.mp hdotmem with hm | hm
    · exact dot_not_mem_dtStr y mo d h mi se hm
    · subst hr3
      rw [hrr2] at hm
      exact parseOffset_no_dot r2 off hoff hm
  · have hs2 : s = dtStr y mo d h mi se ++ '.' :: (ds.map digitChar ++ r2) := by
      rw [hds, hrshape]
    rw [hshape] at hs2
    obtain ⟨hpre_eq, hXY⟩ := first_dot_unique preS _ (dtStr y mo d h mi se) _ hpre
      (dot_not_mem_dtStr y mo d h mi se) hs2
    obtain ⟨hdszeros, hr2z⟩ := map_digitChar_align ds k restS r2 hmax hXY.symm
    rw [hdszeros, parseNanoseconds_replicate_zero k] at hnsv
    injection hnsv with hns0
    rw [hr2z, parseOffset_Z] at hoff
    injection hoff with hoff
    injection hoff with hoff1 hoff2
    subst hr3
    subst hoff2
    subst hp
    subst hns0
    subst hoff1
    have hcount : keepTrailingZerosMsecFormat s = k := by
      rw [hshape, keepTrailing_shape preS _ hpre, scanZerosAux_zeros_Z 0 k []]
      split_ifs <;> omega
    constructor
    · simp [ParseTimeWithTrailingZeroMsec, hp0, hcount]
    · have hyear : ¬ 10000 ≤ y := by omega
      have hkne : ¬ (k = 0) := by omega
      have hfmt : formatWithTrailingZeros ⟨y, mo, d, h, mi, se, 0, 0⟩ k = s := by
        rw [hshape, hpre_eq]
        unfold formatWithTrailingZeros formatFracZeros formatOffsetZ
        rw [nanoDigits_zero]
        have hmin : min k 9 = k := by omega
        simp only [hmin, List.take_replicate]
        have hmin2 : min k 9 = k := by omega
        simp only [hmin2, List.map_replicate]
        have hdz : digitChar 0 = '0' := rfl
        simp [List.append_assoc, hdz]
      simp [TimeWithTrailingZeroMsec.marshalJSON, goTimeMarshalJSON, hyear, hkne, hfmt]

/-- C9 counterexample: the RFC3339 string with a TEN-zero fraction parses
(Go scales only fractions of at most nine digits but accepts longer all-zero
runs), the scanner remembers ten zeros, yet `MarshalJSON` prints at most nine
fraction digits (`formatNano` caps the field width), so the output is NOT the
original string — refuting the claim for fractions of "one or more" zeros. -/
theorem c9_counterexample :
    ParseTimeWithTrailingZeroMsec "2020-01-01T10:54:01.0000000000Z".toList =
      some ⟨⟨2020, 1, 1, 10, 54, 1, 0, 0⟩, 10⟩ ∧
    TimeWithTrailingZeroMsec.marshalJSON ⟨⟨2020, 1, 1, 10, 54, 1, 0, 0⟩, 10⟩ =
      .ok ('"' :: "2020-01-01T10:54:01.000000000Z".toList ++ ['"']) ∧
    ('"' :: "2020-01-01T10:54:01.000000000Z".toList ++ ['"']) ≠
      ('"' :: "2020-01-01T10:54:01.0000000000Z".toList ++ ['"']) := by
  refine ⟨by decide, by decide, by decide⟩

/-- C9 (amended): (1) the code's trailing-zero count is positive exactly on
strings whose first-dot fraction is one or more zeros immediately followed by
`'Z'`; (2) for every RFC3339 string accepted by the parser whose fraction is
`k` zeros followed by `'Z'` with `1 ≤ k ≤ 9`, parsing succeeds remembering
`k` and `MarshalJSON` returns exactly the original string in quotes; (3) for
every parsed string without such an all-zero `'Z'`-terminated fraction,
`MarshalJSON` returns exactly the embedded time's `MarshalJSON` bytes. -/
theorem c9_amended_trailing_zero_round_trip :
    (∀ s : Chars, 1 ≤ keepTrailingZerosMsecFormat s ↔ hasZeroFracZ s) ∧
    (∀ (s preS restS : Chars) (t : GoTime) (k : Nat),
      parseRFC3339 s = some t →
      s = preS ++ '.' :: (List.replicate k '0' ++ 'Z' :: restS) →
      '.' ∉ preS → 1 ≤ k → k ≤ 9 →
      ParseTimeWithTrailingZeroMsec s = some ⟨t, k⟩ ∧
      TimeWithTrailingZeroMsec.marshalJSON ⟨t, k⟩ = .ok ('"' :: s ++ ['"'])) ∧
    (∀ (s : Chars) (tm : TimeWithTrailingZeroMsec),
      ParseTimeWithTrailingZeroMsec s = some tm → ¬ hasZeroFracZ s →
      TimeWithTrailingZeroMsec.marshalJSON tm = goTimeMarshalJSON tm.time) := by
  refine ⟨keepTrailing_pos_iff, parse_shape_roundtrip, ?_⟩
  intro s tm hparse hnot
  have hcount0 : keepTrailingZerosMsecFormat s = 0 := by
    by_contra hne
    exact hnot ((keepTrailing_pos_iff s).mp (by omega))
  unfold ParseTimeWithTrailingZeroMsec at hparse
  cases hpt : parseRFC3339 s with
  | none => rw [hpt] at hparse; cases hparse
  | some t2 =>
    rw [hpt] at hparse
    injection hparse with hparse
    subst hparse
    cases hg : goTimeMarshalJSON t2 with
    | error e => simp [TimeWithTrailingZeroMsec.marshalJSON, hg]
    | ok tb => simp [TimeWithTrailingZeroMsec.marshalJSON, hg, hcount0]

/-- Witness for C9 (amended) at `"2018-03-15T00:00:00.000Z"` (three-zero
fraction round-trips exactly) and `"2020-06-30T23:59:59+05:30"` (no all-zero
`Z` fraction: marshalling defers to the embedded time's marshalling). -/
theorem c9_witness :
    (1 ≤ keepTrailingZerosMsecFormat "2018-03-15T00:00:00.000Z".toList ↔
      hasZeroFracZ "2018-03-15T00:00:00.000Z".toList) ∧
    (ParseTimeWithTrailingZeroMsec "2018-03-15T00:00:00.000Z".toList =
        some ⟨⟨2018, 3, 15, 0, 0, 0, 0, 0⟩, 3⟩ ∧
      TimeWithTrailingZeroMsec.marshalJSON ⟨⟨2018, 3, 15, 0, 0, 0, 0, 0⟩, 3⟩ =
        .ok ('"' :: "2018-03-15T00:00:00.000Z".toList ++ ['"'])) ∧
    TimeWithTrailingZeroMsec.marshalJSON ⟨⟨2020, 6, 30, 23, 59, 59, 0, 19800⟩, 0⟩ =
      goTimeMarshalJSON ⟨2020, 6, 30, 23, 59, 59, 0, 19800⟩ :=
  ⟨c9_amended_trailing_zero_round_trip.1 _,
   c9_amended_trailing_zero_round_trip.2.1 "2018-03-15T00:00:00.000Z".toList
     "2018-03-15T00:00:00".toList [] ⟨2018, 3, 15, 0, 0, 0, 0, 0⟩ 3
     (by decide) (by decide) (by decide) (by decide) (by decide),
   c9_amended_trailing_zero_round_trip.2.2 "2020-06-30T23:59:59+05:30".toList
     ⟨⟨2020, 6, 30, 23, 59, 59, 0, 19800⟩, 0⟩ (by decide)
     (fun hsh => by
       have h1 := (keepTrailing_pos_iff "2020-06-30T23:59:59+05:30".toList).mpr hsh
       revert h1
       decide)⟩
